import Mathlib

/-!
Verification development for the soft-SPI bit-banging engine
(src/softspi.cpp, class SoftSpi).

Modelling conventions:

* The device state (`SpiState`) carries the member variables of the C++
  class (`m_mode`, `m_cpol`, `m_clockSleepCount`, `m_betweenByteSleepCount`,
  `m_frequency`) together with the levels last driven on the two output
  pins `m_sck` and `m_mosi` (fields `sck`, `mosi`).  All of them are
  machine integers in the source; they are modelled as `ℕ`, with `% 256`
  written explicitly where `uint8_t` arithmetic wraps.

* The input pin `m_miso` is read, never written; its electrical
  environment is modelled as an oracle `miso : SpiState → ℕ` giving the
  level `mraa_gpio_read(m_miso)` returns as a function of the currently
  driven output-pin levels.  A loopback wire is the oracle
  `loopbackRead := fun st => st.mosi`.

* Every externally visible action (pin write, pin read, busy wait,
  diagnostic print) is recorded in an `Event` trace, in program order.

* `LOOPS_PER_SECOND` and the `DEFAULT_*` constants live in `softspi.h`,
  which is not part of `src/`; per the spec it is a host-specific
  calibration constant, so it is passed as an explicit parameter `L`.

* `setFrequency` computes with C `double`s; the arithmetic is modelled
  exactly over `ℚ`.  The C cast `double → int32_t` truncates toward
  zero, which coincides with `Rat.floor` on the non-negative values that
  arise for `hz > 0`.
-/

namespace SoftSpi

/-- One externally visible action of the engine, in program order:
a write to the clock pin, a write to the data-out pin, a read of the
data-in pin (recording the value read), one `usleepByCounting` call
(recording the iteration count), or the `printf` diagnostic emitted on
an unhandled SPI mode. -/
inductive Event where
  | writeSck (level : ℕ)
  | writeMosi (level : ℕ)
  | readMiso (value : ℕ)
  | wait (iterations : ℕ)
  | printfUnhandledMode (mode : ℕ)
deriving Repr, DecidableEq

/-- The SoftSpi device state: the C++ member variables plus the levels
last driven on the two output pins. -/
structure SpiState where
  m_mode : ℕ
  m_cpol : ℕ
  m_clockSleepCount : ℕ
  m_betweenByteSleepCount : ℕ
  m_frequency : ℕ
  sck : ℕ
  mosi : ℕ
deriving Repr, DecidableEq

/-- `SoftSpi::setMode` (softspi.cpp:49-61): stores the mode, then for
mode 2 or 3 drives SCK high and sets CPOL = 1, otherwise (all other
values, valid or not) drives SCK low and sets CPOL = 0.  Returns the new
state and the trace of pin writes. -/
def setMode (s : SpiState) (mode : ℕ) : SpiState × List Event :=
  let s0 : SpiState := { s with m_mode := mode }
  if s0.m_mode = 2 ∨ s0.m_mode = 3 then
    ({ s0 with sck := 1, m_cpol := 1 }, [Event.writeSck 1])
  else
    ({ s0 with sck := 0, m_cpol := 0 }, [Event.writeSck 0])

/-- The value `SoftSpi::setFrequency` (softspi.cpp:35-42) stores into
`m_clockSleepCount`:
`int32_t c = (1.0 / frequency) * LOOPS_PER_SECOND / 2.0;
 if (c < 0) c = 1;`
The double arithmetic is modelled exactly over `ℚ`; the
`double → int32_t` cast truncates toward zero, which is `Rat.floor` on
the non-negative values that arise for `hz > 0`.  `L` stands for the
calibration constant `LOOPS_PER_SECOND` from softspi.h. -/
def setFrequencyCount (L hz : ℕ) : ℤ :=
  let c : ℤ := Rat.floor ((1 / (hz : ℚ)) * (L : ℚ) / 2)
  if c < 0 then 1 else c

/-- `SoftSpi::setFrequency`: stores the requested frequency and the
computed half-period iteration count. -/
def setFrequency (L : ℕ) (s : SpiState) (hz : ℕ) : SpiState :=
  { s with m_frequency := hz, m_clockSleepCount := (setFrequencyCount L hz).toNat }

/-- `SoftSpi::setBetweenByteDelay_us` (softspi.cpp:63-65):
`m_betweenByteSleepCount = (t / 1000.0 / 1000.0) * LOOPS_PER_SECOND;`
modelled exactly over `ℚ` with the truncating store. -/
def setBetweenByteDelay_us (L : ℕ) (s : SpiState) (t : ℕ) : SpiState :=
  { s with m_betweenByteSleepCount := (Rat.floor ((t : ℚ) / 1000 / 1000 * (L : ℚ))).toNat }

/-- `SoftSpi::writeBit` (softspi.cpp:86-111).  Returns the value of the
C `return` (a `uint8_t`, so `(uint8_t)-1` is `255`), the state after the
pin writes, and the event trace in program order. -/
def writeBit (miso : SpiState → ℕ) (s : SpiState) (bit : ℕ) :
    ℕ × SpiState × List Event :=
  if s.m_mode = 0 ∨ s.m_mode = 2 then
    let s1 : SpiState := { s with mosi := if bit = 0 then 0 else 1 }
    let r := miso s1
    let s2 : SpiState := { s1 with sck := if s1.m_cpol = 0 then 1 else 0 }
    let s3 : SpiState := { s2 with sck := if s2.m_cpol = 0 then 0 else 1 }
    (r, s3,
      [Event.writeMosi s1.mosi, Event.wait s1.m_clockSleepCount,
       Event.readMiso r, Event.writeSck s2.sck,
       Event.wait s2.m_clockSleepCount, Event.writeSck s3.sck])
  else if s.m_mode = 1 ∨ s.m_mode = 3 then
    let s1 : SpiState := { s with sck := if s.m_cpol = 0 then 1 else 0 }
    let s2 : SpiState := { s1 with mosi := if bit = 0 then 0 else 1 }
    let s3 : SpiState := { s2 with sck := if s2.m_cpol = 0 then 0 else 1 }
    let r := miso s3
    (r, s3,
      [Event.writeSck s1.sck, Event.writeMosi s2.mosi,
       Event.wait s2.m_clockSleepCount, Event.writeSck s3.sck,
       Event.readMiso r, Event.wait s3.m_clockSleepCount])
  else
    (255, s, [Event.printfUnhandledMode s.m_mode])

/-- The loop body of `SoftSpi::writeByte` (softspi.cpp:77-82), counting
down the remaining iterations.  `byte` and `result` are `uint8_t`, so
left shifts wrap modulo 256. -/
def writeByteLoop (miso : SpiState → ℕ) :
    ℕ → SpiState → ℕ → ℕ → ℕ × SpiState × List Event
  | 0, s, _, result => (result, s, [])
  | n + 1, s, byte, result =>
    let bit := byte &&& 0x80
    let result1 := (result <<< 1) % 256
    let br := writeBit miso s bit
    let result2 := result1 ||| (if br.1 = 0 then 0 else 1)
    let byte1 := (byte <<< 1) % 256
    let rest := writeByteLoop miso n br.2.1 byte1 result2
    (rest.1, rest.2.1, br.2.2 ++ rest.2.2)

/-- `SoftSpi::writeByte` (softspi.cpp:75-84): 8 loop iterations starting
from `result = 0`. -/
def writeByte (miso : SpiState → ℕ) (s : SpiState) (byte : ℕ) :
    ℕ × SpiState × List Event :=
  writeByteLoop miso 8 s byte 0

/-- `SoftSpi::write` (softspi.cpp:67-73): the buffer is modelled as a
list; each element is replaced in order by the result of `writeByte` on
its current value, followed by `usleepByCounting(m_betweenByteSleepCount)`. -/
def write (miso : SpiState → ℕ) (s : SpiState) :
    List ℕ → SpiState × List ℕ × List Event
  | [] => (s, [], [])
  | b :: rest =>
    let wb := writeByte miso s b
    let tail := write miso wb.2.1 rest
    (tail.1, wb.1 :: tail.2.1,
      wb.2.2 ++ [Event.wait wb.2.1.m_betweenByteSleepCount] ++ tail.2.2)

/-- Loopback wiring: reading the data-in pin returns the level last
driven on the data-out pin. -/
def loopbackRead : SpiState → ℕ := fun st => st.mosi

/-- The CPOL table stated by the spec: {0 → 0, 1 → 0, 2 → 1, 3 → 1}. -/
def derivedCPOL : ℕ → ℕ
  | 2 => 1
  | 3 => 1
  | _ => 0

/-- A concrete device state used to instantiate hypothesis-bearing
theorems: mode 3, hence CPOL = 1 and SCK idle high. -/
def sMode3 : SpiState :=
  { m_mode := 3, m_cpol := 1, m_clockSleepCount := 5,
    m_betweenByteSleepCount := 9, m_frequency := 100000, sck := 1, mosi := 0 }

/-- A concrete device state in mode 0 (CPOL = 0, SCK idle low). -/
def sMode0 : SpiState :=
  { m_mode := 0, m_cpol := 0, m_clockSleepCount := 4,
    m_betweenByteSleepCount := 6, m_frequency := 500000, sck := 0, mosi := 0 }

/-- A concrete device state whose stored mode is the invalid value 9. -/
def sMode9 : SpiState :=
  { m_mode := 9, m_cpol := 0, m_clockSleepCount := 4,
    m_betweenByteSleepCount := 6, m_frequency := 500000, sck := 0, mosi := 0 }

/-! ## Claims about `setMode` -/

/-- C5: for every valid mode m ∈ {0,1,2,3}, `setMode` stores m, sets the
derived CPOL per the table {0→0, 1→0, 2→1, 3→1}, and immediately drives
the clock pin to that CPOL level — the single pin write in its trace. -/
theorem setMode_valid_cpol_C5 (s : SpiState) (m : ℕ)
    (h : m = 0 ∨ m = 1 ∨ m = 2 ∨ m = 3) :
    (setMode s m).1.m_mode = m ∧
    (setMode s m).1.m_cpol = derivedCPOL m ∧
    (setMode s m).1.sck = derivedCPOL m ∧
    (setMode s m).2 = [Event.writeSck (derivedCPOL m)] := by
  rcases h with h | h | h | h <;> subst h <;>
    simp [setMode, derivedCPOL]

/-- Witness for C5 at mode 2 on a device previously in mode 0. -/
theorem setMode_valid_cpol_C5_w :
    (setMode sMode0 2).1.m_mode = 2 ∧
    (setMode sMode0 2).1.m_cpol = derivedCPOL 2 ∧
    (setMode sMode0 2).1.sck = derivedCPOL 2 ∧
    (setMode sMode0 2).2 = [Event.writeSck (derivedCPOL 2)] :=
  setMode_valid_cpol_C5 sMode0 2 (Or.inr (Or.inr (Or.inl rfl)))

/-- C10: every mode value outside {0,1,2,3} falls into the `else` branch
of `setMode`: the invalid mode is stored as `m_mode`, CPOL is set to 0
and the clock pin is driven low, exactly as for the CPOL = 0 group. -/
theorem setMode_invalid_cpol0_C10 (s : SpiState) (m : ℕ)
    (h : ¬(m = 0 ∨ m = 1 ∨ m = 2 ∨ m = 3)) :
    setMode s m = ({ s with m_mode := m, m_cpol := 0, sck := 0 }, [Event.writeSck 0]) := by
  push_neg at h
  simp [setMode, h.2.2.1, h.2.2.2]

/-- Witness for C10: `setMode 4` on a mode-3 device. -/
theorem setMode_invalid_cpol0_C10_w :
    setMode sMode3 4 = ({ sMode3 with m_mode := 4, m_cpol := 0, sck := 0 },
      [Event.writeSck 0]) :=
  setMode_invalid_cpol0_C10 sMode3 4 (by decide)

/-- C1: contrary to the claim, `setMode 4` does not fail: evaluated on a
device configured with mode 3 (CPOL = 1, SCK high), it overwrites the
stored mode with 4, resets CPOL to 0 and drives the clock pin low,
returning normally. -/
theorem setMode_invalid_is_unchecked_C1 :
    (setMode sMode3 4).1.m_mode = 4 ∧
    (setMode sMode3 4).1.m_cpol = 0 ∧
    (setMode sMode3 4).1.sck = 0 ∧
    (setMode sMode3 4).2 = [Event.writeSck 0] ∧
    sMode3.m_mode = 3 ∧ sMode3.m_cpol = 1 ∧ sMode3.sck = 1 := by
  decide

/-! ## Claims about `setFrequency` -/

/-- `Rat.floor` (the computable floor used in the embedding) agrees with
the `Int.floor` of the `FloorRing ℚ` instance. -/
theorem ratFloor_eq_intFloor (q : ℚ) : Rat.floor q = ⌊q⌋ := by
  rw [Rat.floor_def', Rat.floor_def]

/-- The clamp in `setFrequency` is dead for positive frequencies: the
computed rational is non-negative, so the stored count is its floor. -/
theorem setFrequencyCount_pos_eq (L hz : ℕ) (h : 0 < hz) :
    setFrequencyCount L hz = Rat.floor ((L : ℚ) / (2 * (hz : ℚ))) := by
  have hq : (0 : ℚ) < (hz : ℚ) := by exact_mod_cast h
  have harg : (1 / (hz : ℚ)) * (L : ℚ) / 2 = (L : ℚ) / (2 * (hz : ℚ)) := by
    rw [one_div, inv_mul_eq_div, div_div, mul_comm (hz : ℚ) 2]
  have hnn : (0 : ℚ) ≤ (1 / (hz : ℚ)) * (L : ℚ) / 2 := by positivity
  have hfloor : (0 : ℤ) ≤ Rat.floor ((1 / (hz : ℚ)) * (L : ℚ) / 2) :=
    Rat.le_floor.mpr (by exact_mod_cast hnn)
  unfold setFrequencyCount
  rw [if_neg (by omega), harg]

/-- C2 counterexample: with calibration constant `LOOPS_PER_SECOND` =
1 000 000 and requested frequency 2 000 000 Hz, the exact value
(1/hz)·L/2 = 1/4, and the stored half-period count is 0, not the
claimed minimum of 1 (the code's clamp `if (c < 0) c = 1` only fires on
negative values, and the store truncates instead of rounding). -/
theorem setFrequency_min_clamp_fails_C2 :
    setFrequencyCount 1000000 2000000 = 0 ∧
    ¬(1 ≤ setFrequencyCount 1000000 2000000) := by
  have h0 : setFrequencyCount 1000000 2000000 = 0 := by
    rw [setFrequencyCount_pos_eq 1000000 2000000 (by norm_num),
      ratFloor_eq_intFloor, Int.floor_eq_zero_iff, Set.mem_Ico]
    constructor <;> norm_num
  exact ⟨h0, by omega⟩

/-- C2 (amended): for every calibration constant L and every hz > 0,
`setFrequency` stores the floor (truncation) of (1/hz)·L/2 = L/(2·hz) —
not its rounding — and only negative values are clamped to 1, so the
stored count is non-negative but can be 0 for large hz. -/
theorem setFrequencyCount_floor_no_min_clamp_C2 (L hz : ℕ) (h : 0 < hz) :
    setFrequencyCount L hz = Rat.floor ((L : ℚ) / (2 * (hz : ℚ))) ∧
    0 ≤ setFrequencyCount L hz := by
  refine ⟨setFrequencyCount_pos_eq L hz h, ?_⟩
  rw [setFrequencyCount_pos_eq L hz h]
  exact Rat.le_floor.mpr (by positivity)

/-- Witness for the amended C2 at L = 1 000 000, hz = 1000. -/
theorem setFrequencyCount_floor_no_min_clamp_C2_w :
    setFrequencyCount 1000000 1000 = Rat.floor ((1000000 : ℚ) / (2 * (1000 : ℚ))) ∧
    0 ≤ setFrequencyCount 1000000 1000 :=
  setFrequencyCount_floor_no_min_clamp_C2 1000000 1000 (by decide)

/-- C8: the stored half-period count is monotonically non-increasing in
the requested frequency: for 0 < hz₁ < hz₂,
`setFrequencyCount L hz₂ ≤ setFrequencyCount L hz₁`. -/
theorem setFrequencyCount_antitone_C8 (L hz1 hz2 : ℕ)
    (h1 : 0 < hz1) (h12 : hz1 < hz2) :
    setFrequencyCount L hz2 ≤ setFrequencyCount L hz1 := by
  have h2 : 0 < hz2 := lt_trans h1 h12
  rw [setFrequencyCount_pos_eq L hz1 h1, setFrequencyCount_pos_eq L hz2 h2]
  have hle : (L : ℚ) / (2 * (hz2 : ℚ)) ≤ (L : ℚ) / (2 * (hz1 : ℚ)) := by
    have hq1 : (0 : ℚ) < 2 * (hz1 : ℚ) := by
      have : (0 : ℚ) < (hz1 : ℚ) := by exact_mod_cast h1
      linarith
    have hq12 : 2 * (hz1 : ℚ) ≤ 2 * (hz2 : ℚ) := by
      have : (hz1 : ℚ) ≤ (hz2 : ℚ) := by exact_mod_cast le_of_lt h12
      linarith
    exact div_le_div_of_nonneg_left (by positivity) hq1 hq12
  have hfl : ((Rat.floor ((L : ℚ) / (2 * (hz2 : ℚ)))) : ℚ) ≤ (L : ℚ) / (2 * (hz1 : ℚ)) :=
    le_trans (Rat.le_floor.mp (le_refl _)) hle
  exact Rat.le_floor.mpr hfl

/-- Witness for C8: L = 1 000 000, hz₁ = 1000, hz₂ = 2000. -/
theorem setFrequencyCount_antitone_C8_w :
    0 < 1000 ∧ 1000 < 2000 ∧
    setFrequencyCount 1000000 2000 ≤ setFrequencyCount 1000000 1000 :=
  ⟨by decide, by decide,
    setFrequencyCount_antitone_C8 1000000 1000 2000 (by decide) (by decide)⟩

/-! ## Claims about `writeBit` -/

/-- On an unhandled mode, `writeBit` prints the diagnostic and returns
`(uint8_t)-1 = 255`, leaving the state untouched. -/
theorem writeBit_invalid (miso : SpiState → ℕ) (s : SpiState)
    (h : ¬(s.m_mode = 0 ∨ s.m_mode = 1 ∨ s.m_mode = 2 ∨ s.m_mode = 3))
    (bit : ℕ) :
    writeBit miso s bit = (255, s, [Event.printfUnhandledMode s.m_mode]) := by
  push_neg at h
  simp [writeBit, h.1, h.2.1, h.2.2.1, h.2.2.2]

/-- C4: with CPOL ∈ {0,1}, a bit exchange in modes 0/2 performs exactly:
drive MOSI to the output bit, wait a half period, sample MISO, drive SCK
opposite CPOL, wait a half period, drive SCK back to CPOL, and return the
sampled value; in modes 1/3 exactly: drive SCK opposite CPOL, drive MOSI
to the output bit, wait a half period, drive SCK back to CPOL, sample
MISO, wait a half period, and return the sampled value. -/
theorem writeBit_sequence_C4 (miso : SpiState → ℕ) (s : SpiState) (bit : ℕ)
    (hc : s.m_cpol ≤ 1) :
    ((s.m_mode = 0 ∨ s.m_mode = 2) →
      writeBit miso s bit =
        (miso { s with mosi := if bit = 0 then 0 else 1 },
         { s with mosi := if bit = 0 then 0 else 1, sck := s.m_cpol },
         [Event.writeMosi (if bit = 0 then 0 else 1),
          Event.wait s.m_clockSleepCount,
          Event.readMiso (miso { s with mosi := if bit = 0 then 0 else 1 }),
          Event.writeSck (1 - s.m_cpol),
          Event.wait s.m_clockSleepCount,
          Event.writeSck s.m_cpol])) ∧
    ((s.m_mode = 1 ∨ s.m_mode = 3) →
      writeBit miso s bit =
        (miso { s with mosi := if bit = 0 then 0 else 1, sck := s.m_cpol },
         { s with mosi := if bit = 0 then 0 else 1, sck := s.m_cpol },
         [Event.writeSck (1 - s.m_cpol),
          Event.writeMosi (if bit = 0 then 0 else 1),
          Event.wait s.m_clockSleepCount,
          Event.writeSck s.m_cpol,
          Event.readMiso (miso { s with mosi := if bit = 0 then 0 else 1, sck := s.m_cpol }),
          Event.wait s.m_clockSleepCount])) := by
  have hc01 : s.m_cpol = 0 ∨ s.m_cpol = 1 := by omega
  constructor
  · rintro (h | h) <;> rcases hc01 with hcp | hcp <;>
      simp [writeBit, h, hcp]
  · rintro (h | h) <;> rcases hc01 with hcp | hcp <;>
      simp [writeBit, h, hcp]

/-- Witness for C4: mode 0, CPOL 0, loopback, output bit 1. -/
theorem writeBit_sequence_C4_w :
    writeBit loopbackRead sMode0 1 =
      (1, { sMode0 with mosi := 1, sck := 0 },
       [Event.writeMosi 1, Event.wait 4, Event.readMiso 1,
        Event.writeSck 1, Event.wait 4, Event.writeSck 0]) := by
  have h := (writeBit_sequence_C4 loopbackRead sMode0 1 (by decide)).1 (Or.inl rfl)
  simpa [sMode0, loopbackRead] using h

/-- C9: with any stored mode outside {0,1,2,3}, `writeBit` returns the
sentinel 255 for every input bit with no pin write in its trace, and
consequently `writeByte` returns 0xFF for every input byte. -/
theorem writeBit_writeByte_invalid_C9 (miso : SpiState → ℕ) (s : SpiState)
    (bit b : ℕ)
    (h : ¬(s.m_mode = 0 ∨ s.m_mode = 1 ∨ s.m_mode = 2 ∨ s.m_mode = 3)) :
    writeBit miso s bit = (255, s, [Event.printfUnhandledMode s.m_mode]) ∧
    (∀ e ∈ (writeBit miso s bit).2.2,
      (∀ l, e ≠ Event.writeSck l) ∧ (∀ l, e ≠ Event.writeMosi l)) ∧
    (writeByte miso s b).1 = 255 := by
  refine ⟨writeBit_invalid miso s h bit, ?_, ?_⟩
  · rw [writeBit_invalid miso s h bit]
    intro e he
    simp only [List.mem_singleton] at he
    subst he
    exact ⟨fun l => by simp, fun l => by simp⟩
  · simp [writeByte, writeByteLoop, writeBit_invalid miso s h]

/-- Witness for C9 on the mode-9 state. -/
theorem writeBit_writeByte_invalid_C9_w :
    writeBit loopbackRead sMode9 3 = (255, sMode9, [Event.printfUnhandledMode 9]) ∧
    (∀ e ∈ (writeBit loopbackRead sMode9 3).2.2,
      (∀ l, e ≠ Event.writeSck l) ∧ (∀ l, e ≠ Event.writeMosi l)) ∧
    (writeByte loopbackRead sMode9 165).1 = 255 := by
  have h := writeBit_writeByte_invalid_C9 loopbackRead sMode9 3 165 (by decide)
  simpa [sMode9] using h

/-! ## Event projections and pure reformulations of the byte loop -/

/-- The levels written to the data-out pin, in order, in a trace. -/
def mosiWrites (tr : List Event) : List ℕ :=
  tr.filterMap fun e =>
    match e with
    | Event.writeMosi l => some l
    | _ => none

/-- The values read from the data-in pin, in order, in a trace. -/
def misoReads (tr : List Event) : List ℕ :=
  tr.filterMap fun e =>
    match e with
    | Event.readMiso v => some v
    | _ => none

/-- The 8 bits of a byte, most significant first, as 0/1 levels. -/
def msbFirstBits (b : ℕ) : List ℕ :=
  (List.range 8).map fun i => if b.testBit (7 - i) then 1 else 0

/-- MSB-first reassembly of sampled values, exactly as `writeByte`
accumulates them: shift the accumulator and OR in 0 or 1. -/
def assembleByte (rs : List ℕ) : ℕ :=
  rs.foldl (fun acc r => ((acc <<< 1) % 256) ||| (if r = 0 then 0 else 1)) 0

/-- The result-register recurrence of the `writeByte` loop when every
`writeBit` echoes the output bit (loopback), with the state abstracted
away. -/
def byteLoopPure : ℕ → ℕ → ℕ → ℕ
  | 0, _, result => result
  | n + 1, byte, result =>
    byteLoopPure n ((byte <<< 1) % 256)
      (((result <<< 1) % 256) ||| (if byte &&& 0x80 = 0 then 0 else 1))

/-- The sequence of levels `writeByte` drives on the data-out pin, with
the state abstracted away. -/
def mosiBitsPure : ℕ → ℕ → List ℕ
  | 0, _ => []
  | n + 1, byte =>
    (if byte &&& 0x80 = 0 then 0 else 1) :: mosiBitsPure n ((byte <<< 1) % 256)

/-- The device state after transferring a prefix of the buffer. -/
def stateAfter (miso : SpiState → ℕ) (s : SpiState) (bytes : List ℕ) : SpiState :=
  bytes.foldl (fun st b => (writeByte miso st b).2.1) s

theorem stateAfter_nil (miso : SpiState → ℕ) (s : SpiState) :
    stateAfter miso s [] = s := rfl

theorem stateAfter_cons (miso : SpiState → ℕ) (s : SpiState) (b : ℕ) (l : List ℕ) :
    stateAfter miso s (b :: l) = stateAfter miso ((writeByte miso s b).2.1) l := by
  simp only [stateAfter, List.foldl_cons]

/-- `writeBit` never changes the configuration members, only the output
pin levels. -/
theorem writeBit_config (miso : SpiState → ℕ) (s : SpiState) (bit : ℕ) :
    ((writeBit miso s bit).2.1).m_mode = s.m_mode ∧
    ((writeBit miso s bit).2.1).m_cpol = s.m_cpol ∧
    ((writeBit miso s bit).2.1).m_clockSleepCount = s.m_clockSleepCount ∧
    ((writeBit miso s bit).2.1).m_betweenByteSleepCount = s.m_betweenByteSleepCount := by
  simp only [writeBit]
  split
  · exact ⟨rfl, rfl, rfl, rfl⟩
  split
  · exact ⟨rfl, rfl, rfl, rfl⟩
  · exact ⟨rfl, rfl, rfl, rfl⟩

/-- Under loopback wiring a valid-mode bit exchange returns the output
bit (as a 0/1 level): in both mode groups the data-out pin is driven
before the data-in pin is read. -/
theorem writeBit_loopback_result (s : SpiState) (bit : ℕ)
    (h : s.m_mode = 0 ∨ s.m_mode = 1 ∨ s.m_mode = 2 ∨ s.m_mode = 3) :
    (writeBit loopbackRead s bit).1 = if bit = 0 then 0 else 1 := by
  rcases h with h | h | h | h <;> simp [writeBit, loopbackRead, h]

/-- In a valid mode, each bit exchange drives the data-out pin exactly
once (to the 0/1 level of the output bit) and reads the data-in pin
exactly once, returning the value read. -/
theorem writeBit_valid_events (miso : SpiState → ℕ) (s : SpiState) (bit : ℕ)
    (h : s.m_mode = 0 ∨ s.m_mode = 1 ∨ s.m_mode = 2 ∨ s.m_mode = 3) :
    mosiWrites (writeBit miso s bit).2.2 = [if bit = 0 then 0 else 1] ∧
    misoReads (writeBit miso s bit).2.2 = [(writeBit miso s bit).1] := by
  rcases h with h | h | h | h <;> simp [writeBit, mosiWrites, misoReads, h]

/-- Under loopback the `writeByte` loop computes the pure recurrence
`byteLoopPure`, for any valid mode. -/
theorem writeByteLoop_loopback (n : ℕ) :
    ∀ (s : SpiState) (byte result : ℕ),
      (s.m_mode = 0 ∨ s.m_mode = 1 ∨ s.m_mode = 2 ∨ s.m_mode = 3) →
      (writeByteLoop loopbackRead n s byte result).1 = byteLoopPure n byte result := by
  induction n with
  | zero => intro s byte result _; rfl
  | succ n ih =>
    intro s byte result h
    simp only [writeByteLoop, byteLoopPure]
    rw [writeBit_loopback_result s (byte &&& 0x80) h]
    have hmode : ((writeBit loopbackRead s (byte &&& 0x80)).2.1).m_mode = s.m_mode :=
      (writeBit_config loopbackRead s (byte &&& 0x80)).1
    rw [ih _ _ _ (by rw [hmode]; exact h)]
    by_cases hb : byte &&& 0x80 = 0 <;> simp [hb]

set_option maxRecDepth 8000 in
/-- The pure loopback recurrence is the identity on bytes. -/
theorem byteLoopPure_roundtrip : ∀ b : Fin 256, byteLoopPure 8 b.val 0 = b.val := by
  decide

/-- C3: loopback round-trip — if the data-in line always reads back the
level last driven on the data-out line, then for every byte b < 256 and
every configured mode in {0,1,2,3}, `writeByte` returns exactly b. -/
theorem writeByte_loopback_roundtrip_C3 (s : SpiState) (b : ℕ)
    (hm : s.m_mode = 0 ∨ s.m_mode = 1 ∨ s.m_mode = 2 ∨ s.m_mode = 3)
    (hb : b < 256) :
    (writeByte loopbackRead s b).1 = b := by
  rw [writeByte, writeByteLoop_loopback 8 s b 0 hm]
  exact byteLoopPure_roundtrip ⟨b, hb⟩

/-- Witness for C3: byte 0xA5 in mode 3. -/
theorem writeByte_loopback_roundtrip_C3_w :
    (writeByte loopbackRead sMode3 165).1 = 165 :=
  writeByte_loopback_roundtrip_C3 sMode3 165 (by decide) (by decide)

theorem mosiWrites_append (a b : List Event) :
    mosiWrites (a ++ b) = mosiWrites a ++ mosiWrites b := by
  simp [mosiWrites]

theorem misoReads_append (a b : List Event) :
    misoReads (a ++ b) = misoReads a ++ misoReads b := by
  simp [misoReads]

set_option maxRecDepth 8000 in
/-- The data-out levels driven by the byte loop are the byte's bits,
most significant first. -/
theorem mosiBitsPure_eq_msb : ∀ b : Fin 256, mosiBitsPure 8 b.val = msbFirstBits b.val := by
  decide

/-- In a valid mode, `n` iterations of the byte loop drive the data-out
pin to the successive top bits of the shifting output byte, read the
data-in pin exactly `n` times, and fold the values read into the result
register by shift-and-OR. -/
theorem writeByteLoop_events (miso : SpiState → ℕ) (n : ℕ) :
    ∀ (s : SpiState) (byte result : ℕ),
      (s.m_mode = 0 ∨ s.m_mode = 1 ∨ s.m_mode = 2 ∨ s.m_mode = 3) →
      mosiWrites (writeByteLoop miso n s byte result).2.2 = mosiBitsPure n byte ∧
      (misoReads (writeByteLoop miso n s byte result).2.2).length = n ∧
      (writeByteLoop miso n s byte result).1 =
        (misoReads (writeByteLoop miso n s byte result).2.2).foldl
          (fun acc r => ((acc <<< 1) % 256) ||| (if r = 0 then 0 else 1)) result := by
  induction n with
  | zero =>
    intro s byte result _
    exact ⟨rfl, rfl, rfl⟩
  | succ n ih =>
    intro s byte result h
    have hmode : ((writeBit miso s (byte &&& 0x80)).2.1).m_mode = s.m_mode :=
      (writeBit_config miso s (byte &&& 0x80)).1
    have hvalid : ((writeBit miso s (byte &&& 0x80)).2.1).m_mode = 0 ∨
        ((writeBit miso s (byte &&& 0x80)).2.1).m_mode = 1 ∨
        ((writeBit miso s (byte &&& 0x80)).2.1).m_mode = 2 ∨
        ((writeBit miso s (byte &&& 0x80)).2.1).m_mode = 3 := by
      rw [hmode]; exact h
    obtain ⟨ihw, ihl, ihr⟩ := ih ((writeBit miso s (byte &&& 0x80)).2.1)
      ((byte <<< 1) % 256)
      (((result <<< 1) % 256) ||| (if (writeBit miso s (byte &&& 0x80)).1 = 0 then 0 else 1))
      hvalid
    obtain ⟨hbw, hbr⟩ := writeBit_valid_events miso s (byte &&& 0x80) h
    simp only [writeByteLoop, mosiBitsPure]
    refine ⟨?_, ?_, ?_⟩
    · rw [mosiWrites_append, hbw, ihw]
      simp
    · rw [misoReads_append, hbr, List.length_append, ihl]
      simp only [List.length_singleton]
      omega
    · rw [misoReads_append, hbr, List.foldl_append, ihr]
      simp

/-- C6: in a valid mode, `writeByte` performs exactly 8 bit exchanges,
most significant bit first: the data-out levels it drives are the bits
of the outgoing byte from bit 7 down to bit 0 (extracted by the 0x80
mask on the shifting byte), the data-in pin is read exactly 8 times, and
the returned byte is the MSB-first shift-and-OR accumulation of the 8
values read. -/
theorem writeByte_msb_first_C6 (miso : SpiState → ℕ) (s : SpiState) (b : ℕ)
    (hm : s.m_mode = 0 ∨ s.m_mode = 1 ∨ s.m_mode = 2 ∨ s.m_mode = 3)
    (hb : b < 256) :
    mosiWrites (writeByte miso s b).2.2 = msbFirstBits b ∧
    (misoReads (writeByte miso s b).2.2).length = 8 ∧
    (writeByte miso s b).1 = assembleByte (misoReads (writeByte miso s b).2.2) := by
  obtain ⟨h1, h2, h3⟩ := writeByteLoop_events miso 8 s b 0 hm
  rw [writeByte]
  exact ⟨h1.trans (mosiBitsPure_eq_msb ⟨b, hb⟩), h2, h3⟩

/-- Witness for C6: byte 0xB7 in mode 0 under loopback. -/
theorem writeByte_msb_first_C6_w :
    mosiWrites (writeByte loopbackRead sMode0 183).2.2 = msbFirstBits 183 ∧
    (misoReads (writeByte loopbackRead sMode0 183).2.2).length = 8 ∧
    (writeByte loopbackRead sMode0 183).1 =
      assembleByte (misoReads (writeByte loopbackRead sMode0 183).2.2) :=
  writeByte_msb_first_C6 loopbackRead sMode0 183 (by decide) (by decide)

/-! ## Claims about `write` -/

theorem writeByteLoop_betweenByte (miso : SpiState → ℕ) (n : ℕ) :
    ∀ (s : SpiState) (byte result : ℕ),
      ((writeByteLoop miso n s byte result).2.1).m_betweenByteSleepCount
        = s.m_betweenByteSleepCount := by
  induction n with
  | zero => intro s byte result; rfl
  | succ n ih =>
    intro s byte result
    simp only [writeByteLoop]
    rw [ih]
    exact (writeBit_config miso s (byte &&& 0x80)).2.2.2

theorem writeByte_betweenByte (miso : SpiState → ℕ) (s : SpiState) (b : ℕ) :
    ((writeByte miso s b).2.1).m_betweenByteSleepCount = s.m_betweenByteSleepCount :=
  writeByteLoop_betweenByte miso 8 s b 0

/-- C7: `write` visits each buffer position in order, replaces position i
with the byte returned by `writeByte` on that position's original value
(run in the state reached after the first i bytes — full duplex, in
place), and its trace is, per byte, that byte's exchange events followed
by exactly one inter-byte busy wait — so exactly `len(buffer)` inter-byte
delays, including one after the last byte. -/
theorem write_in_place_delays_C7 (miso : SpiState → ℕ) (s : SpiState) (buf : List ℕ) :
    ((write miso s buf).2.1).length = buf.length ∧
    (∀ i, i < buf.length →
      ((write miso s buf).2.1).getD i 0 =
        (writeByte miso (stateAfter miso s (buf.take i)) (buf.getD i 0)).1) ∧
    (write miso s buf).2.2 =
      ((List.range buf.length).map fun i =>
        (writeByte miso (stateAfter miso s (buf.take i)) (buf.getD i 0)).2.2
          ++ [Event.wait s.m_betweenByteSleepCount]).flatten := by
  induction buf generalizing s with
  | nil =>
    refine ⟨rfl, ?_, rfl⟩
    intro i hi
    exact absurd hi (by simp)
  | cons b rest ih =>
    obtain ⟨ihlen, ihget, ihtr⟩ := ih ((writeByte miso s b).2.1)
    have hbb : ((writeByte miso s b).2.1).m_betweenByteSleepCount
        = s.m_betweenByteSleepCount := writeByte_betweenByte miso s b
    refine ⟨?_, ?_, ?_⟩
    · simp only [write, List.length_cons, ihlen]
    · intro i hi
      cases i with
      | zero =>
        simp [write, stateAfter_nil]
      | succ i =>
        have hi' : i < rest.length := by simpa using hi
        have hg := ihget i hi'
        simp only [write, List.getD_cons_succ, List.take_succ_cons, stateAfter_cons]
        exact hg
    · simp only [write]
      rw [ihtr]
      simp only [hbb, List.length_cons, List.range_succ_eq_map, List.map_cons,
        List.map_map, List.flatten_cons, List.take_zero, stateAfter_nil,
        List.getD_cons_zero, Function.comp_def, List.take_succ_cons,
        List.getD_cons_succ, stateAfter_cons, List.append_assoc]

/-- Witness for C7 on a concrete two-byte buffer under loopback. -/
theorem write_in_place_delays_C7_w :
    ((write loopbackRead sMode0 [165, 90]).2.1).getD 1 0 =
      (writeByte loopbackRead (stateAfter loopbackRead sMode0 ([165, 90].take 1))
        ([165, 90].getD 1 0)).1 :=
  (write_in_place_delays_C7 loopbackRead sMode0 [165, 90]).2.1 1 (by decide)

end SoftSpi
